import Mathlib

/-!
Verification of the StudyMate repository's retrieval subsystem and CRUD layer
against its specification.

The Python sources are shallowly embedded:
* `ai_services/indexer.py` (keyword-overlap index) in namespace `DocumentIndexer`;
* `ai_services/llm_client.py` (retry loop) in namespace `LLMClient`;
* `ai_services/vector_store.py` (embedding store) in namespace `VectorStore`;
* `models.py` + `routes/main_routes.py` (files table, cascade deletes) in
  namespaces `FilesDB` and `CascadeDB`.

Python dictionaries are modelled as insertion-ordered association lists,
Python floats as exact rationals, and Python string methods by
character-list recursions mirroring CPython semantics for the ASCII
inputs the claims quantify over.
-/

/-- Models Python's whitespace test used by str.split() / str.strip()
(space, tab, newline, carriage return, vertical tab, form feed). -/
def pySpace (c : Char) : Bool :=
  c == ' ' || c == '\t' || c == '\n' || c == '\r' || c == '\x0b' || c == '\x0c'

/-- Accumulator-style worker for `pySplit`: collects maximal runs of
non-whitespace characters. -/
def splitWsAux : List Char → List Char → List String
  | [], acc => if acc.isEmpty then [] else [String.mk acc.reverse]
  | c :: cs, acc =>
    if pySpace c then
      if acc.isEmpty then splitWsAux cs []
      else String.mk acc.reverse :: splitWsAux cs []
    else splitWsAux cs (c :: acc)

/-- Models Python's str.split() with no separator: maximal whitespace runs
delimit the words, and no empty words are produced. -/
def pySplit (s : String) : List String := splitWsAux s.data []

/-- Models Python's str.strip(): removes leading and trailing whitespace. -/
def pyStrip (s : String) : String :=
  String.mk (((s.data.dropWhile pySpace).reverse.dropWhile pySpace).reverse)

/-- Models Python's str.lower(), character by character. -/
def pyLower (s : String) : String := String.mk (s.data.map Char.toLower)

/-- Lookup in an insertion-ordered association list; models Python
dict membership / subscript access. -/
def dictGet? {κ α : Type} [DecidableEq κ] : List (κ × α) → κ → Option α
  | [], _ => none
  | (k', v) :: rest, k => if k' = k then some v else dictGet? rest k

/-- Models Python dict assignment d[k] = v: overwrite in place when the key
is present, append otherwise. -/
def dictSet {κ α : Type} [DecidableEq κ] : List (κ × α) → κ → α → List (κ × α)
  | [], k, v => [(k, v)]
  | (k', v') :: rest, k, v =>
    if k' = k then (k, v) :: rest else (k', v') :: dictSet rest k v

/-- Models Python's del d[k] (a no-op on an absent key, matching the
guarded deletes in the source). -/
def dictDel {κ α : Type} [DecidableEq κ] : List (κ × α) → κ → List (κ × α)
  | [], _ => []
  | (k', v) :: rest, k =>
    if k' = k then dictDel rest k else (k', v) :: dictDel rest k

namespace DocumentIndexer

/-- Chunk identifier, modelling the string
f"{document_id}_{chunk_index}_{content_hash}" produced by
DocumentIndexer._generate_chunk_id.  Since the index component prints
without underscores and the hash component is a fixed-width hex string,
that string format is injective in the three components, so the id is
modelled as the triple itself.  The hash function (an 8-character md5
digest in the source) is kept abstract as a parameter h. -/
structure ChunkId where
  doc : String
  idx : Nat
  hsh : String
deriving DecidableEq, Repr

/-- One entry of index["chunks"], as written by index_chunks
(timestamps are dropped: no claim mentions them). -/
structure ChunkData where
  content : String
  document_id : String
  chunk_index : Nat
  word_count : Nat
deriving DecidableEq, Repr

/-- One entry of index["documents"] (the indexed_at timestamp is dropped). -/
structure DocInfo where
  chunk_count : Nat
  chunk_ids : List ChunkId
deriving DecidableEq, Repr

/-- In-memory state of the keyword index: the two dicts of
DocumentIndexer.index, as insertion-ordered association lists. -/
structure IndexState where
  documents : List (String × DocInfo)
  chunks : List (ChunkId × ChunkData)
deriving DecidableEq, Repr

/-- The state produced by _load_index when no index file exists. -/
def emptyIndex : IndexState := ⟨[], []⟩

/-- Models DocumentIndexer._generate_chunk_id with abstract hash h. -/
def generate_chunk_id (h : String → String) (content : String)
    (document_id : String) (chunk_index : Nat) : ChunkId :=
  ⟨document_id, chunk_index, h content⟩

/-- The per-chunk loop body of DocumentIndexer.index_chunks, iterating over
enumerate(chunks): blank chunks are skipped, others are stored (stripped)
under a fresh chunk id which is also appended to the document's chunk_ids. -/
def indexLoop (h : String → String) (document_id : String) :
    IndexState → List (Nat × String) → IndexState
  | st, [] => st
  | st, (i, chunk) :: rest =>
    if chunk == "" || pyStrip chunk == "" then indexLoop h document_id st rest
    else
      let cid := generate_chunk_id h chunk document_id i
      let cd : ChunkData :=
        ⟨pyStrip chunk, document_id, i, (pySplit chunk).length⟩
      let docs' :=
        match dictGet? st.documents document_id with
        | some info =>
            dictSet st.documents document_id
              { info with chunk_ids := info.chunk_ids ++ [cid] }
        | none => st.documents
      indexLoop h document_id ⟨docs', dictSet st.chunks cid cd⟩ rest

/-- Models DocumentIndexer.index_chunks: rejects an empty chunk list or an
empty document_id, otherwise resets the document entry and indexes every
non-blank chunk.  Returns the Python boolean together with the new state
(saving to disk has no effect on the in-memory state and is dropped). -/
def index_chunks (h : String → String) (st : IndexState)
    (chunks : List String) (document_id : String) : Bool × IndexState :=
  if chunks = [] ∨ document_id = "" then (false, st)
  else
    let st1 : IndexState :=
      ⟨dictSet st.documents document_id ⟨chunks.length, []⟩, st.chunks⟩
    (true, indexLoop h document_id st1 chunks.enum)

/-- Models set(word.lower() for word in query.split() if len(word) > 2)
from search_chunks. -/
def queryWords (q : String) : Finset String :=
  (((pySplit q).filter (fun w => w.data.length > 2)).map pyLower).toFinset

/-- Models the content-word set of search_chunks: the content is lowercased
first, then split, filtered by length, and (redundantly) lowercased again. -/
def contentWords (content : String) : Finset String :=
  (((pySplit (pyLower content)).filter (fun w => w.data.length > 2)).map
    pyLower).toFinset

/-- One element of the scored_chunks list built by search_chunks. -/
structure SearchResult where
  chunk_id : ChunkId
  content : String
  document_id : String
  score : ℚ
  chunk_index : Nat
deriving DecidableEq, Repr

/-- The continue-condition of search_chunks,
"if document_id and chunk_data[\x22document_id\x22] != document_id":
the filter is active only for a present, non-empty document_id. -/
def docFilterSkip (f : Option String) (cdoc : String) : Bool :=
  match f with
  | none => false
  | some d => d != "" && cdoc != d

/-- The loop body of search_chunks on one (chunk_id, chunk_data) entry:
skipped entries and entries sharing no query word yield none; otherwise the
relevance score len(common_words) / len(query_words) is attached.  Python's
float division of the two lengths is modelled as the exact rational
mkRat |common| |query_words|. -/
def scoreEntry (qw : Finset String) (f : Option String)
    (p : ChunkId × ChunkData) : Option SearchResult :=
  if docFilterSkip f p.2.document_id then none
  else if qw ∩ contentWords p.2.content = ∅ then none
  else some ⟨p.1, p.2.content, p.2.document_id,
    mkRat ((qw ∩ contentWords p.2.content).card) qw.card, p.2.chunk_index⟩

/-- Stable insertion into a list sorted by non-increasing score: the
inserted element precedes every element of equal score, matching the
stability of Python's list.sort with reverse=True. -/
def insertDesc (x : SearchResult) : List SearchResult → List SearchResult
  | [] => [x]
  | y :: ys => if x.score < y.score then y :: insertDesc x ys else x :: y :: ys

/-- Stable sort by non-increasing score, modelling
scored_chunks.sort(key=lambda x: x["score"], reverse=True). -/
def sortDesc : List SearchResult → List SearchResult
  | [] => []
  | x :: xs => insertDesc x (sortDesc xs)

/-- Models the Python slice l[:n] for an arbitrary (possibly negative)
int n, as used in "return scored_chunks[:limit]". -/
def pySlice {α : Type} (l : List α) (n : Int) : List α :=
  if 0 ≤ n then l.take n.toNat else l.take (l.length - n.natAbs)

/-- Models DocumentIndexer.search_chunks. -/
def search_chunks (st : IndexState) (query : String)
    (document_id : Option String) (limit : Int) : List SearchResult :=
  if query = "" then []
  else if queryWords query = ∅ then []
  else
    pySlice
      (sortDesc (st.chunks.filterMap (scoreEntry (queryWords query) document_id)))
      limit

/-- Models DocumentIndexer.get_document_chunks. -/
def get_document_chunks (st : IndexState) (document_id : String) : List String :=
  match dictGet? st.documents document_id with
  | none => []
  | some info =>
      info.chunk_ids.filterMap (fun cid => (dictGet? st.chunks cid).map (·.content))

/-- Models DocumentIndexer.remove_document: deletes the chunks listed under
the document, then the document entry itself. -/
def remove_document (st : IndexState) (document_id : String) :
    Bool × IndexState :=
  match dictGet? st.documents document_id with
  | none => (false, st)
  | some info =>
      (true,
        ⟨dictDel st.documents document_id,
         info.chunk_ids.foldl (fun cs cid => dictDel cs cid) st.chunks⟩)

/-- The relevance score search_chunks assigns to a stored content for a
query (zero when no sufficiently long word is shared). -/
def relevanceScore (query content : String) : ℚ :=
  mkRat ((queryWords query ∩ contentWords content).card) (queryWords query).card

end DocumentIndexer

namespace LLMClient

/-- One part of a Gemini candidate's content: only the text field is read. -/
structure Candidate where
  parts : List String
deriving DecidableEq, Repr

/-- A response of self.model.generate_content. -/
structure GenResponse where
  candidates : List Candidate
deriving DecidableEq, Repr

/-- Outcome of one external API call inside LLMClient.generate_content:
either the call raises, or it returns a response object. -/
inductive ApiAttempt where
  | raises
  | returns (r : GenResponse)

/-- The body of one try-block iteration, up to the point where an exception
is raised or a text is returned: a raising call, an empty candidate list
("No valid response generated"), and an empty parts list (IndexError on
parts[0]) all land in the except-branch, and are modelled as none. -/
def attemptText : ApiAttempt → Option String
  | .raises => none
  | .returns r =>
    match r.candidates with
    | [] => none
    | c :: _ =>
      match c.parts with
      | [] => none
      | t :: _ => some t

/-- Observable outcome of LLMClient.generate_content: the returned text or
the raised message, the number of API calls made, and the durations of the
time.sleep calls in order. -/
structure GenOutcome where
  result : Except String String
  attemptsMade : Nat
  sleeps : List ℚ
deriving Repr

/-- The retry loop "for attempt in range(max_retries)" of
LLMClient.generate_content, with api giving the outcome of the external
call at each attempt and time.sleep recorded symbolically. -/
def generate_content_loop (api : Nat → ApiAttempt) (retry_delay : ℚ)
    (max_retries attempt : Nat) : GenOutcome :=
  if attempt < max_retries then
    match attemptText (api attempt) with
    | some t => ⟨.ok t, attempt + 1, []⟩
    | none =>
      if attempt < max_retries - 1 then
        let rest := generate_content_loop api retry_delay max_retries (attempt + 1)
        ⟨rest.result, rest.attemptsMade, retry_delay * 2 ^ attempt :: rest.sleeps⟩
      else
        ⟨.error "Failed to generate content after max_retries attempts",
          attempt + 1, []⟩
  else ⟨.error "loop exhausted", attempt, []⟩
termination_by max_retries - attempt

/-- Models LLMClient.generate_content: max_retries = 3, retry_delay = 1.0,
starting at attempt 0. -/
def generate_content (api : Nat → ApiAttempt) : GenOutcome :=
  generate_content_loop api 1 3 0

end LLMClient

namespace VectorStore

/-- In-memory state of VectorStore: the parallel lists self.chunks and
self.embeddings (one embedding row per chunk). -/
structure VSState where
  chunks : List String
  embeddings : List (List ℚ)
deriving DecidableEq, Repr

/-- Stable ascending insertion on (index, similarity) pairs. -/
def insertAscP (x : Nat × ℚ) : List (Nat × ℚ) → List (Nat × ℚ)
  | [] => [x]
  | y :: ys => if y.2 < x.2 then y :: insertAscP x ys else x :: y :: ys

/-- Stable ascending sort on (index, similarity) pairs. -/
def sortAscP : List (Nat × ℚ) → List (Nat × ℚ)
  | [] => []
  | x :: xs => insertAscP x (sortAscP xs)

/-- Models np.argsort(similarities): the indices of the similarity array
ordered by ascending similarity.  (NumPy's default sort is not stable;
no claim depends on the order of ties.) -/
def argsortAsc (sims : List ℚ) : List Nat := (sortAscP sims.enum).map (·.1)

/-- Models the Python slice l[s:] for an arbitrary int s, as used in
"np.argsort(similarities)[-k:]". -/
def pySliceFrom {α : Type} (l : List α) (s : Int) : List α :=
  if 0 ≤ s then l.drop s.toNat else l.drop (l.length - s.natAbs)

/-- Models the similarities array of VectorStore.query_chunks,
cosine_similarity(query_embedding, self.embeddings).flatten(): one score
per stored embedding row, with the sentence-embedding model (encode) and
cosine_similarity (cosSim) kept abstract and each float modelled as an
exact rational. -/
def simList (encode : String → List ℚ) (cosSim : List ℚ → List ℚ → ℚ)
    (st : VSState) (query : String) : List ℚ :=
  st.embeddings.map (cosSim (encode query))

/-- Models VectorStore.query_chunks: an empty store yields [], k is
min(top_k, num_chunks) with an early return on k == 0, and otherwise the
chunks at np.argsort(similarities)[-k:][::-1] are returned. -/
def query_chunks (encode : String → List ℚ) (cosSim : List ℚ → List ℚ → ℚ)
    (st : VSState) (query : String) (top_k : Int) : List String :=
  if st.chunks = [] ∨ st.embeddings = [] then []
  else if min top_k (st.chunks.length : Int) = 0 then []
  else
    ((pySliceFrom (argsortAsc (simList encode cosSim st query))
        (-(min top_k (st.chunks.length : Int)))).reverse).map
      (fun i => st.chunks.getD i "")

end VectorStore

namespace FilesDB

/-- One row of the files table from models.py.  The UUID primary key is
modelled as a natural number drawn from a fresh-id supply; created_at is
dropped.  filename carries no unique constraint; file_path is UNIQUE. -/
structure FileRow where
  id : Nat
  user_id : String
  filename : String
  file_path : String
deriving DecidableEq, Repr

/-- The files table together with the fresh-primary-key supply (modelling
uuid4 defaults: every freshly drawn id differs from every stored one). -/
structure FilesTable where
  rows : List FileRow
  nextId : Nat
deriving DecidableEq, Repr

/-- Ids already used are below the supply counter. -/
def FilesTable.WF (t : FilesTable) : Prop := ∀ r ∈ t.rows, r.id < t.nextId

/-- Models os.path.join("uploads", f"{user.id}_{document.filename}") from
the document_summarizer_submit route (user ids, UUIDs in the source, are
kept as their string forms). -/
def uploadFilePath (userId : String) (filename : String) : String :=
  "uploads/" ++ userId ++ "_" ++ filename

/-- Models the database effect of the document_summarizer_submit route:
a File row is added and committed; the commit raises an IntegrityError
exactly when the UNIQUE constraint on file_path is violated. -/
def document_summarizer_submit (t : FilesTable) (userId : String)
    (filename : String) : Except String FilesTable :=
  let path := uploadFilePath userId filename
  if t.rows.any (fun r => r.file_path == path) then
    .error "UNIQUE constraint failed: files.file_path"
  else
    .ok ⟨t.rows ++ [⟨t.nextId, userId, filename, path⟩], t.nextId + 1⟩

end FilesDB

namespace CascadeDB

/-- Relational state of the ORM schema in models.py, restricted to primary
keys and foreign keys (the only columns referential integrity concerns).
Each child table row is (id, foreign key). -/
structure DBState where
  users : List Nat
  documents : List (Nat × Nat)
  chunkRows : List (Nat × Nat)
  roadmaps : List (Nat × Nat)
  steps : List (Nat × Nat)
  resources : List (Nat × Nat)
  notifications : List (Nat × Nat)
  files : List (Nat × Nat)
deriving DecidableEq, Repr

/-- Every foreign key of every child row references an existing parent
row: documents, roadmaps, notifications and files reference users; chunks
reference documents; steps reference roadmaps; resources reference steps. -/
def refIntact (db : DBState) : Prop :=
  (∀ d ∈ db.documents, d.2 ∈ db.users) ∧
  (∀ c ∈ db.chunkRows, ∃ d ∈ db.documents, d.1 = c.2) ∧
  (∀ r ∈ db.roadmaps, r.2 ∈ db.users) ∧
  (∀ s ∈ db.steps, ∃ r ∈ db.roadmaps, r.1 = s.2) ∧
  (∀ rs ∈ db.resources, ∃ s ∈ db.steps, s.1 = rs.2) ∧
  (∀ n ∈ db.notifications, n.2 ∈ db.users) ∧
  (∀ f ∈ db.files, f.2 ∈ db.users)

/-- Deleting a Chunk row (no children). -/
def delete_chunk (db : DBState) (cid : Nat) : DBState :=
  { db with chunkRows := db.chunkRows.filter (fun c => c.1 != cid) }

/-- Deleting a Resource row (no children). -/
def delete_resource (db : DBState) (rid : Nat) : DBState :=
  { db with resources := db.resources.filter (fun rs => rs.1 != rid) }

/-- Deleting a Notification row (no children). -/
def delete_notification (db : DBState) (nid : Nat) : DBState :=
  { db with notifications := db.notifications.filter (fun n => n.1 != nid) }

/-- Deleting a File row (no children). -/
def delete_file (db : DBState) (fid : Nat) : DBState :=
  { db with files := db.files.filter (fun f => f.1 != fid) }

/-- Deleting a Step row cascades to its resources
(cascade="all, delete-orphan" on Step.resources). -/
def delete_step (db : DBState) (sid : Nat) : DBState :=
  { db with steps := db.steps.filter (fun s => s.1 != sid),
            resources := db.resources.filter (fun rs => rs.2 != sid) }

/-- Deleting a Roadmap row cascades to its steps and, through them, to
their resources. -/
def delete_roadmap (db : DBState) (rid : Nat) : DBState :=
  let stepDel := fun sid => db.steps.any (fun s => s.1 == sid && s.2 == rid)
  { db with roadmaps := db.roadmaps.filter (fun r => r.1 != rid),
            steps := db.steps.filter (fun s => s.2 != rid),
            resources := db.resources.filter (fun rs => !(stepDel rs.2)) }

/-- Deleting a Document row cascades to its chunks
(cascade="all, delete-orphan" on Document.chunks). -/
def delete_document (db : DBState) (did : Nat) : DBState :=
  { db with documents := db.documents.filter (fun d => d.1 != did),
            chunkRows := db.chunkRows.filter (fun c => c.2 != did) }

/-- Deleting a User row cascades to its documents, roadmaps, notifications
and files, and transitively to chunks, steps and resources. -/
def delete_user (db : DBState) (uid : Nat) : DBState :=
  let docDel := fun did => db.documents.any (fun d => d.1 == did && d.2 == uid)
  let rmDel := fun rid => db.roadmaps.any (fun r => r.1 == rid && r.2 == uid)
  let stepDel := fun sid => db.steps.any (fun s => s.1 == sid && rmDel s.2)
  { users := db.users.filter (fun u => u != uid),
    documents := db.documents.filter (fun d => d.2 != uid),
    chunkRows := db.chunkRows.filter (fun c => !(docDel c.2)),
    roadmaps := db.roadmaps.filter (fun r => r.2 != uid),
    steps := db.steps.filter (fun s => !(rmDel s.2)),
    resources := db.resources.filter (fun rs => !(stepDel rs.2)),
    notifications := db.notifications.filter (fun n => n.2 != uid),
    files := db.files.filter (fun f => f.2 != uid) }

end CascadeDB

/-- A concrete stand-in hash used only to instantiate the abstract hash
parameter in witnesses and counterexamples; no theorem depends on its
values. -/
def idHash : String → String := fun s => s

namespace DocumentIndexer

/-- C9: index_chunks returns False and leaves the state unchanged on an
empty chunk list or an empty document_id, and remove_document returns
False and leaves the state unchanged on a document_id that is not an
indexed document. -/
theorem guarded_ops_atomic_on_rejection (h : String → String)
    (st : IndexState) (chunks : List String) (d : String) :
    ((chunks = [] ∨ d = "") → index_chunks h st chunks d = (false, st)) ∧
    (dictGet? st.documents d = none → remove_document st d = (false, st)) := by
  constructor
  · intro hg
    simp [index_chunks, hg]
  · intro hg
    simp [remove_document, hg]

/-- Witness for guarded_ops_atomic_on_rejection at a concrete state. -/
theorem guarded_ops_atomic_on_rejection_witness :
    index_chunks idHash emptyIndex [] "doc1" = (false, emptyIndex) ∧
    remove_document emptyIndex "doc1" = (false, emptyIndex) :=
  ⟨(guarded_ops_atomic_on_rejection idHash emptyIndex [] "doc1").1 (Or.inl rfl),
   (guarded_ops_atomic_on_rejection idHash emptyIndex [] "doc1").2 rfl⟩

end DocumentIndexer

namespace LLMClient

/-- Closed-form unfolding of the three-attempt retry loop. -/
theorem generate_content_eq (api : Nat → ApiAttempt) :
    generate_content api =
      match attemptText (api 0) with
      | some t => ⟨.ok t, 1, []⟩
      | none =>
        match attemptText (api 1) with
        | some t => ⟨.ok t, 2, [1 * 2 ^ 0]⟩
        | none =>
          match attemptText (api 2) with
          | some t => ⟨.ok t, 3, [1 * 2 ^ 0, 1 * 2 ^ 1]⟩
          | none =>
            ⟨.error "Failed to generate content after max_retries attempts",
              3, [1 * 2 ^ 0, 1 * 2 ^ 1]⟩ := by
  rcases h0 : attemptText (api 0) with _ | t0 <;>
    rcases h1 : attemptText (api 1) with _ | t1 <;>
      rcases h2 : attemptText (api 2) with _ | t2 <;>
        simp [generate_content] <;>
          (rw [generate_content_loop]; norm_num [h0]) <;>
            (rw [generate_content_loop]; norm_num [h1]) <;>
              (rw [generate_content_loop]; norm_num [h2])

end LLMClient

namespace LLMClient

/-- C4: generate_content makes at most 3 attempts of the external call,
sleeps retry_delay * 2^attempt (1s then 2s) between consecutive failed
attempts, returns the text extracted from the first successful attempt,
and raises if and only if all 3 attempts fail. -/
theorem generate_content_retry_spec (api : Nat → ApiAttempt) :
    (generate_content api).attemptsMade ≤ 3 ∧
    ((∃ e, (generate_content api).result = .error e) ↔
      ∀ i, i < 3 → attemptText (api i) = none) ∧
    (∀ i, i < 3 → (∀ j, j < i → attemptText (api j) = none) →
      ∀ t, attemptText (api i) = some t →
        (generate_content api).result = .ok t ∧
        (generate_content api).attemptsMade = i + 1 ∧
        (generate_content api).sleeps =
          (List.range i).map (fun j => (1 : ℚ) * 2 ^ j)) ∧
    ((∀ i, i < 3 → attemptText (api i) = none) →
      (generate_content api).attemptsMade = 3 ∧
      (generate_content api).sleeps = [(1 : ℚ), 2]) := by
  have he := generate_content_eq api
  rcases h0 : attemptText (api 0) with _ | t0
  case some =>
    rw [h0] at he
    simp only [] at he
    refine ⟨by simp [he], ⟨?_, ?_⟩, ?_, ?_⟩
    · rintro ⟨e, hres⟩
      rw [he] at hres
      simp at hres
    · intro hall
      have := hall 0 (by norm_num)
      rw [h0] at this
      simp at this
    · intro i hi hmin t ht
      interval_cases i
      · rw [h0] at ht
        injection ht with ht
        subst ht
        simp [he]
      · have := hmin 0 (by norm_num)
        rw [h0] at this
        simp at this
      · have := hmin 0 (by norm_num)
        rw [h0] at this
        simp at this
    · intro hall
      have := hall 0 (by norm_num)
      rw [h0] at this
      simp at this
  case none =>
    rcases h1 : attemptText (api 1) with _ | t1
    case some =>
      rw [h0, h1] at he
      simp only [] at he
      refine ⟨by simp [he], ⟨?_, ?_⟩, ?_, ?_⟩
      · rintro ⟨e, hres⟩
        rw [he] at hres
        simp at hres
      · intro hall
        have := hall 1 (by norm_num)
        rw [h1] at this
        simp at this
      · intro i hi hmin t ht
        interval_cases i
        · rw [h0] at ht
          simp at ht
        · rw [h1] at ht
          injection ht with ht
          subst ht
          refine ⟨by simp [he], by simp [he], ?_⟩
          rw [he]
          norm_num [List.range_succ]
        · have := hmin 1 (by norm_num)
          rw [h1] at this
          simp at this
      · intro hall
        have := hall 1 (by norm_num)
        rw [h1] at this
        simp at this
    case none =>
      rcases h2 : attemptText (api 2) with _ | t2
      case some =>
        rw [h0, h1, h2] at he
        simp only [] at he
        refine ⟨by simp [he], ⟨?_, ?_⟩, ?_, ?_⟩
        · rintro ⟨e, hres⟩
          rw [he] at hres
          simp at hres
        · intro hall
          have := hall 2 (by norm_num)
          rw [h2] at this
          simp at this
        · intro i hi hmin t ht
          interval_cases i
          · rw [h0] at ht
            simp at ht
          · rw [h1] at ht
            simp at ht
          · rw [h2] at ht
            injection ht with ht
            subst ht
            refine ⟨by simp [he], by simp [he], ?_⟩
            rw [he]
            norm_num [List.range_succ]
        · intro hall
          have := hall 2 (by norm_num)
          rw [h2] at this
          simp at this
      case none =>
        rw [h0, h1, h2] at he
        simp only [] at he
        refine ⟨by simp [he], ⟨?_, ?_⟩, ?_, ?_⟩
        · intro _ i hi
          interval_cases i
          · exact h0
          · exact h1
          · exact h2
        · intro _
          refine ⟨"Failed to generate content after max_retries attempts", ?_⟩
          rw [he]
        · intro i hi hmin t ht
          interval_cases i
          · rw [h0] at ht
            simp at ht
          · rw [h1] at ht
            simp at ht
          · rw [h2] at ht
            simp at ht
        · intro _
          refine ⟨by simp [he], ?_⟩
          rw [he]
          norm_num

/-- Witness for generate_content_retry_spec: the first call raises, the
second succeeds with text "ok", so the client sleeps once for 1 second and
returns "ok" after 2 attempts. -/
theorem generate_content_retry_spec_witness :
    (generate_content (fun i => if i = 0 then .raises
      else .returns ⟨[⟨["ok"]⟩]⟩)).result = .ok "ok" ∧
    (generate_content (fun i => if i = 0 then .raises
      else .returns ⟨[⟨["ok"]⟩]⟩)).attemptsMade = 2 ∧
    (generate_content (fun i => if i = 0 then .raises
      else .returns ⟨[⟨["ok"]⟩]⟩)).sleeps =
      (List.range 1).map (fun j => (1 : ℚ) * 2 ^ j) :=
  ((generate_content_retry_spec _).2.2.1 1 (by norm_num)
    (by intro j hj; interval_cases j; rfl) "ok" rfl)

end LLMClient

namespace CascadeDB

/-- Deleting a user preserves referential integrity. -/
theorem refIntact_delete_user (db : DBState) (uid : Nat)
    (h : refIntact db) : refIntact (delete_user db uid) := by
  obtain ⟨hd, hc, hr, hs, hrs, hn, hf⟩ := h
  refine ⟨?_, ?_, ?_, ?_, ?_, ?_, ?_⟩ <;> intro x hx <;>
    simp only [delete_user, List.mem_filter, bne_iff_ne, ne_eq,
      Bool.not_eq_true', List.any_eq_false, Bool.and_eq_true, beq_iff_eq,
      not_and, decide_eq_true_eq] at hx ⊢
  · exact ⟨hd x hx.1, hx.2⟩
  · obtain ⟨d, hdm, hdeq⟩ := hc x hx.1
    refine ⟨d, ⟨hdm, ?_⟩, hdeq⟩
    intro hu
    have := hx.2 d hdm hdeq
    simp [hu] at this
  · exact ⟨hr x hx.1, hx.2⟩
  · obtain ⟨r, hrm, hreq⟩ := hs x hx.1
    refine ⟨r, ⟨hrm, ?_⟩, hreq⟩
    intro hu
    have := hx.2 r hrm hreq
    simp [hu] at this
  · obtain ⟨s, hsm, hseq⟩ := hrs x hx.1
    have hsr : ∀ r ∈ db.roadmaps, r.1 = s.2 → ¬r.2 = uid := by
      intro r hrm hreq hu
      have := hx.2 s hsm hseq
      rw [List.any_eq_true] at this
      exact this ⟨r, hrm, by simp [hreq, hu]⟩
    exact ⟨s, ⟨hsm, hsr⟩, hseq⟩
  · exact ⟨hn x hx.1, hx.2⟩
  · exact ⟨hf x hx.1, hx.2⟩

/-- Deleting a document preserves referential integrity. -/
theorem refIntact_delete_document (db : DBState) (did : Nat)
    (h : refIntact db) : refIntact (delete_document db did) := by
  obtain ⟨hd, hc, hr, hs, hrs, hn, hf⟩ := h
  refine ⟨?_, ?_, ?_, ?_, ?_, ?_, ?_⟩ <;> intro x hx <;>
    simp only [delete_document, List.mem_filter, bne_iff_ne, ne_eq] at hx ⊢
  · exact hd x hx.1
  · obtain ⟨d, hdm, hdeq⟩ := hc x hx.1
    exact ⟨d, ⟨hdm, by rw [hdeq]; exact hx.2⟩, hdeq⟩
  · exact hr x hx
  · exact hs x hx
  · exact hrs x hx
  · exact hn x hx
  · exact hf x hx

/-- Deleting a roadmap preserves referential integrity. -/
theorem refIntact_delete_roadmap (db : DBState) (rid : Nat)
    (h : refIntact db) : refIntact (delete_roadmap db rid) := by
  obtain ⟨hd, hc, hr, hs, hrs, hn, hf⟩ := h
  refine ⟨?_, ?_, ?_, ?_, ?_, ?_, ?_⟩ <;> intro x hx <;>
    simp only [delete_roadmap, List.mem_filter, bne_iff_ne, ne_eq,
      Bool.not_eq_true', List.any_eq_false, Bool.and_eq_true, beq_iff_eq,
      not_and] at hx ⊢
  · exact hd x hx
  · exact hc x hx
  · exact hr x hx.1
  · obtain ⟨r, hrm, hreq⟩ := hs x hx.1
    exact ⟨r, ⟨hrm, by rw [hreq]; exact hx.2⟩, hreq⟩
  · obtain ⟨s, hsm, hseq⟩ := hrs x hx.1
    refine ⟨s, ⟨hsm, ?_⟩, hseq⟩
    intro hrq
    have := hx.2 s hsm hseq
    simp [hrq] at this
  · exact hn x hx
  · exact hf x hx

/-- Deleting a step preserves referential integrity. -/
theorem refIntact_delete_step (db : DBState) (sid : Nat)
    (h : refIntact db) : refIntact (delete_step db sid) := by
  obtain ⟨hd, hc, hr, hs, hrs, hn, hf⟩ := h
  refine ⟨?_, ?_, ?_, ?_, ?_, ?_, ?_⟩ <;> intro x hx <;>
    simp only [delete_step, List.mem_filter, bne_iff_ne, ne_eq] at hx ⊢
  · exact hd x hx
  · exact hc x hx
  · exact hr x hx
  · obtain ⟨r, hrm, hreq⟩ := hs x hx.1
    exact ⟨r, hrm, hreq⟩
  · obtain ⟨s, hsm, hseq⟩ := hrs x hx.1
    exact ⟨s, ⟨hsm, by rw [hseq]; exact hx.2⟩, hseq⟩
  · exact hn x hx
  · exact hf x hx

/-- Deleting a leaf row (chunk, resource, notification or file) preserves
referential integrity. -/
theorem refIntact_delete_leaf (db : DBState) (cid rsid nid fid : Nat)
    (h : refIntact db) :
    refIntact (delete_chunk db cid) ∧ refIntact (delete_resource db rsid) ∧
    refIntact (delete_notification db nid) ∧ refIntact (delete_file db fid) := by
  obtain ⟨hd, hc, hr, hs, hrs, hn, hf⟩ := h
  refine ⟨⟨?_, ?_, ?_, ?_, ?_, ?_, ?_⟩, ⟨?_, ?_, ?_, ?_, ?_, ?_, ?_⟩,
    ⟨?_, ?_, ?_, ?_, ?_, ?_, ?_⟩, ⟨?_, ?_, ?_, ?_, ?_, ?_, ?_⟩⟩ <;>
    intro x hx <;>
    simp only [delete_chunk, delete_resource, delete_notification,
      delete_file, List.mem_filter] at hx ⊢ <;>
    first
      | exact hd x hx | exact hc x hx | exact hr x hx | exact hs x hx
      | exact hrs x hx | exact hn x hx | exact hf x hx
      | exact hd x hx.1 | exact hc x hx.1 | exact hr x hx.1
      | exact hs x hx.1 | exact hrs x hx.1 | exact hn x hx.1
      | exact hf x hx.1

end CascadeDB

namespace CascadeDB

/-- C7: deleting a Document row deletes every Chunk row referencing it;
deleting a User row deletes every Document, Roadmap, Notification and File
row referencing it; and every delete operation preserves the invariant
that each child row's foreign key references an existing parent row. -/
theorem cascade_deletes_no_orphans (db : DBState)
    (did uid rid sid cid rsid nid fid : Nat) :
    (∀ c ∈ (delete_document db did).chunkRows, c.2 ≠ did) ∧
    (∀ d ∈ (delete_user db uid).documents, d.2 ≠ uid) ∧
    (∀ r ∈ (delete_user db uid).roadmaps, r.2 ≠ uid) ∧
    (∀ n ∈ (delete_user db uid).notifications, n.2 ≠ uid) ∧
    (∀ f ∈ (delete_user db uid).files, f.2 ≠ uid) ∧
    (refIntact db →
      refIntact (delete_user db uid) ∧ refIntact (delete_document db did) ∧
      refIntact (delete_roadmap db rid) ∧ refIntact (delete_step db sid) ∧
      refIntact (delete_chunk db cid) ∧ refIntact (delete_resource db rsid) ∧
      refIntact (delete_notification db nid) ∧ refIntact (delete_file db fid)) := by
  refine ⟨?_, ?_, ?_, ?_, ?_, ?_⟩
  · intro c hc
    simp only [delete_document, List.mem_filter, bne_iff_ne, ne_eq] at hc
    exact hc.2
  · intro d hd
    simp only [delete_user, List.mem_filter, bne_iff_ne, ne_eq] at hd
    exact hd.2
  · intro r hr
    simp only [delete_user, List.mem_filter, bne_iff_ne, ne_eq] at hr
    exact hr.2
  · intro n hn
    simp only [delete_user, List.mem_filter, bne_iff_ne, ne_eq] at hn
    exact hn.2
  · intro f hf
    simp only [delete_user, List.mem_filter, bne_iff_ne, ne_eq] at hf
    exact hf.2
  · intro h
    obtain ⟨h1, h2, h3, h4⟩ := refIntact_delete_leaf db cid rsid nid fid h
    exact ⟨refIntact_delete_user db uid h, refIntact_delete_document db did h,
      refIntact_delete_roadmap db rid h, refIntact_delete_step db sid h,
      h1, h2, h3, h4⟩

/-- A small concrete database exercising every table. -/
def exDB : DBState :=
  ⟨[1], [(10, 1)], [(20, 10)], [(30, 1)], [(40, 30)], [(50, 40)],
    [(60, 1)], [(70, 1)]⟩

/-- Witness for cascade_deletes_no_orphans on a concrete database. -/
theorem cascade_deletes_no_orphans_witness :
    refIntact exDB ∧ refIntact (delete_user exDB 1) ∧
    (∀ c ∈ (delete_document exDB 10).chunkRows, c.2 ≠ 10) :=
  ⟨by unfold refIntact; decide,
   ((cascade_deletes_no_orphans exDB 10 1 30 40 20 50 60 70).2.2.2.2.2
     (by unfold refIntact; decide)).1,
   (cascade_deletes_no_orphans exDB 10 1 30 40 20 50 60 70).1⟩

end CascadeDB

namespace FilesDB

/-- A files table holding one upload of "notes.txt" by user "u1". -/
def exTable : FilesTable :=
  ⟨[⟨0, "u1", "notes.txt", uploadFilePath "u1" "notes.txt"⟩], 1⟩

/-- Counterexample to C6 as stated: the filename "notes.txt" is already
present in the files table, yet a new upload of that filename by the same
user "u1" creates no new row: the commit fails on the UNIQUE constraint of
file_path (the path is built from user id and filename only). -/
theorem upload_duplicate_filename_counterexample :
    (∃ r ∈ exTable.rows, r.filename = "notes.txt") ∧
    document_summarizer_submit exTable "u1" "notes.txt" =
      .error "UNIQUE constraint failed: files.file_path" := by
  constructor
  · exact ⟨⟨0, "u1", "notes.txt", uploadFilePath "u1" "notes.txt"⟩,
      by simp [exTable], rfl⟩
  · rfl

/-- C6 amended: when the computed file_path is not yet present — in
particular whenever the existing record with the duplicate filename
belongs to a different user — the upload creates a new File row with a
fresh primary-key id and every previously stored row, including the one
with the duplicate filename, still exists. -/
theorem upload_duplicate_filename_distinct_record (t : FilesTable)
    (u f : String) (hwf : t.WF)
    (hdup : ∃ r ∈ t.rows, r.filename = f)
    (hpath : ∀ r ∈ t.rows, r.file_path ≠ uploadFilePath u f) :
    ∃ t', document_summarizer_submit t u f = .ok t' ∧
      (⟨t.nextId, u, f, uploadFilePath u f⟩ : FileRow) ∈ t'.rows ∧
      t.nextId ∉ t.rows.map (·.id) ∧
      (∀ r ∈ t.rows, r ∈ t'.rows) ∧
      ∃ r0 ∈ t'.rows, r0.filename = f ∧ r0.id ≠ t.nextId := by
  have hany : t.rows.any
      (fun r => r.file_path == uploadFilePath u f) = false := by
    rw [List.any_eq_false]
    intro r hr
    simpa using hpath r hr
  refine ⟨⟨t.rows ++ [⟨t.nextId, u, f, uploadFilePath u f⟩], t.nextId + 1⟩,
    ?_, ?_, ?_, ?_, ?_⟩
  · simp [document_summarizer_submit, hany]
  · simp
  · intro hmem
    simp only [List.mem_map] at hmem
    obtain ⟨r, hr, hid⟩ := hmem
    exact absurd hid (Nat.ne_of_lt (hwf r hr))
  · intro r hr
    simp [hr]
  · obtain ⟨r0, hr0, hf0⟩ := hdup
    exact ⟨r0, by simp [hr0], hf0, Nat.ne_of_lt (hwf r0 hr0)⟩

/-- Witness for upload_duplicate_filename_distinct_record: user "u2"
uploads "notes.txt", which user "u1" had already uploaded. -/
theorem upload_duplicate_filename_distinct_record_witness :
    (exTable.WF ∧ (∃ r ∈ exTable.rows, r.filename = "notes.txt") ∧
      (∀ r ∈ exTable.rows,
        r.file_path ≠ uploadFilePath "u2" "notes.txt")) ∧
    ∃ t', document_summarizer_submit exTable "u2" "notes.txt" = .ok t' ∧
      (⟨exTable.nextId, "u2", "notes.txt",
        uploadFilePath "u2" "notes.txt"⟩ : FileRow) ∈ t'.rows ∧
      exTable.nextId ∉ exTable.rows.map (·.id) ∧
      (∀ r ∈ exTable.rows, r ∈ t'.rows) ∧
      ∃ r0 ∈ t'.rows, r0.filename = "notes.txt" ∧ r0.id ≠ exTable.nextId :=
  ⟨⟨by unfold FilesTable.WF; decide, by decide, by decide⟩,
   upload_duplicate_filename_distinct_record exTable "u2" "notes.txt"
     (by unfold FilesTable.WF; decide) (by decide) (by decide)⟩

end FilesDB

namespace DocumentIndexer

/-- Inserting preserves the multiset of results. -/
theorem insertDesc_perm (x : SearchResult) (l : List SearchResult) :
    List.Perm (insertDesc x l) (x :: l) := by
  induction l with
  | nil => exact List.Perm.refl _
  | cons y ys ih =>
    rw [insertDesc]
    split
    · exact (ih.cons y).trans (List.Perm.swap x y ys)
    · exact List.Perm.refl _

/-- Sorting preserves the multiset of results. -/
theorem sortDesc_perm (l : List SearchResult) : List.Perm (sortDesc l) l := by
  induction l with
  | nil => exact List.Perm.refl _
  | cons x xs ih => exact (insertDesc_perm x (sortDesc xs)).trans (ih.cons x)

/-- Inserting into a list sorted by non-increasing score keeps it sorted. -/
theorem insertDesc_sorted (x : SearchResult) {l : List SearchResult}
    (h : l.Pairwise (fun a b => b.score ≤ a.score)) :
    (insertDesc x l).Pairwise (fun a b => b.score ≤ a.score) := by
  induction l with
  | nil => simp [insertDesc]
  | cons y ys ih =>
    rw [insertDesc]
    rw [List.pairwise_cons] at h
    split
    · rename_i hlt
      rw [List.pairwise_cons]
      refine ⟨?_, ih h.2⟩
      intro b hb
      rcases List.mem_cons.mp ((insertDesc_perm x ys).mem_iff.mp hb) with rfl | hby
      · exact le_of_lt hlt
      · exact h.1 b hby
    · rename_i hge
      rw [List.pairwise_cons]
      refine ⟨?_, List.pairwise_cons.mpr h⟩
      intro b hb
      rcases List.mem_cons.mp hb with rfl | hby
      · exact le_of_not_lt hge
      · exact le_trans (h.1 b hby) (le_of_not_lt hge)

/-- The model of list.sort(..., reverse=True) yields non-increasing scores. -/
theorem sortDesc_sorted (l : List SearchResult) :
    (sortDesc l).Pairwise (fun a b => b.score ≤ a.score) := by
  induction l with
  | nil => simp [sortDesc]
  | cons x xs ih => exact insertDesc_sorted x ih

/-- A Python slice l[:n] is a sublist of l. -/
theorem pySlice_sublist {α : Type} (l : List α) (n : Int) :
    List.Sublist (pySlice l n) l := by
  unfold pySlice
  split <;> exact List.take_sublist ..

/-- For a nonnegative bound, the slice l[:n] has at most n elements. -/
theorem pySlice_length_le {α : Type} (l : List α) (n : Int) (h : 0 ≤ n) :
    ((pySlice l n).length : Int) ≤ n := by
  unfold pySlice
  rw [if_pos h, List.length_take]
  omega

/-- Any search result arises from scoring one stored chunk entry. -/
theorem mem_search_elim {st : IndexState} {q : String} {f : Option String}
    {lim : Int} {r : SearchResult} (hr : r ∈ search_chunks st q f lim) :
    ∃ p ∈ st.chunks, scoreEntry (queryWords q) f p = some r := by
  unfold search_chunks at hr
  split at hr
  · simp at hr
  · split at hr
    · simp at hr
    · have h1 : r ∈ sortDesc (st.chunks.filterMap (scoreEntry (queryWords q) f)) :=
        (pySlice_sublist _ lim).mem hr
      have h2 := (sortDesc_perm _).mem_iff.mp h1
      exact List.mem_filterMap.mp h2

/-- Inversion of the scoring step: a produced result copies the entry's
fields and carries the keyword-overlap score, the entry passed the
document filter, and it shares at least one query word. -/
theorem scoreEntry_eq_some {qw : Finset String} {f : Option String}
    {p : ChunkId × ChunkData} {r : SearchResult}
    (h : scoreEntry qw f p = some r) :
    docFilterSkip f p.2.document_id = false ∧
    qw ∩ contentWords p.2.content ≠ ∅ ∧
    r = ⟨p.1, p.2.content, p.2.document_id,
      mkRat ((qw ∩ contentWords p.2.content).card) qw.card,
      p.2.chunk_index⟩ := by
  unfold scoreEntry at h
  split at h
  · exact absurd h (by simp)
  · split at h
    · exact absurd h (by simp)
    · rename_i hskip hne
      injection h with h
      exact ⟨Bool.of_not_eq_true hskip, hne, h.symm⟩

/-- The keyword-overlap score of a nonempty intersection is positive and
at most one. -/
theorem score_pos_le_one {qw cw : Finset String}
    (hne : qw ∩ cw ≠ ∅) :
    mkRat ((qw ∩ cw).card) qw.card =
      (((qw ∩ cw).card : ℚ)) / ((qw.card : ℚ)) ∧
    0 < mkRat ((qw ∩ cw).card) qw.card ∧
    mkRat ((qw ∩ cw).card) qw.card ≤ 1 := by
  have hqw : qw.Nonempty := by
    obtain ⟨x, hx⟩ := Finset.nonempty_iff_ne_empty.mpr hne
    exact ⟨x, (Finset.mem_inter.mp hx).1⟩
  have hc : 0 < (qw ∩ cw).card :=
    Finset.card_pos.mpr (Finset.nonempty_iff_ne_empty.mpr hne)
  have hq : 0 < qw.card := Finset.card_pos.mpr hqw
  have hdiv : mkRat (((qw ∩ cw).card : Int)) qw.card =
      (((qw ∩ cw).card : ℚ)) / ((qw.card : ℚ)) := by
    rw [Rat.mkRat_eq_div]
    push_cast
    rfl
  refine ⟨hdiv, ?_, ?_⟩
  · rw [hdiv]
    apply div_pos
    · exact_mod_cast hc
    · exact_mod_cast hq
  · rw [hdiv]
    rw [div_le_one (by exact_mod_cast hq)]
    exact_mod_cast Finset.card_le_card Finset.inter_subset_left

/-- C3: every returned score is exactly the rational
|query words ∩ content words| / |query words| computed over the lowercased
words of length greater than two, so it lies in (0, 1] and the returned
chunk shares at least one such word with the query. -/
theorem search_score_is_keyword_overlap (st : IndexState) (q : String)
    (f : Option String) (lim : Int) (r : SearchResult)
    (hr : r ∈ search_chunks st q f lim) :
    r.score = ((queryWords q ∩ contentWords r.content).card : ℚ) /
      (((queryWords q).card : ℚ)) ∧
    0 < r.score ∧ r.score ≤ 1 ∧
    (queryWords q ∩ contentWords r.content).Nonempty := by
  obtain ⟨p, hp, hse⟩ := mem_search_elim hr
  obtain ⟨hskip, hne, hreq⟩ := scoreEntry_eq_some hse
  obtain ⟨hdiv, hpos, hle⟩ := score_pos_le_one hne
  subst hreq
  exact ⟨hdiv, hpos, hle, Finset.nonempty_iff_ne_empty.mpr hne⟩

end DocumentIndexer

namespace DocumentIndexer

/-- C10: with a non-empty document filter, every search result belongs to
the filtered document. -/
theorem search_document_filter_no_leak (st : IndexState) (q : String)
    (lim : Int) (d : String) (hd : d ≠ "") (r : SearchResult)
    (hr : r ∈ search_chunks st q (some d) lim) : r.document_id = d := by
  obtain ⟨p, hp, hse⟩ := mem_search_elim hr
  obtain ⟨hskip, hne, hreq⟩ := scoreEntry_eq_some hse
  subst hreq
  simp only [docFilterSkip, Bool.and_eq_false_iff, bne_eq_false_iff_eq] at hskip
  rcases hskip with h | h
  · exact absurd h hd
  · exact h

/-- When both guards pass, search_chunks is the sorted, sliced scored list. -/
theorem search_chunks_eq_of_guards {st : IndexState} {q : String}
    {f : Option String} {lim : Int} (h1 : ¬q = "")
    (h2 : ¬queryWords q = ∅) :
    search_chunks st q f lim =
      pySlice (sortDesc (st.chunks.filterMap (scoreEntry (queryWords q) f)))
        lim := by
  unfold search_chunks
  rw [if_neg h1, if_neg h2]

/-- When a guard fires, search_chunks returns the empty list. -/
theorem search_chunks_guard {st : IndexState} {q : String}
    {f : Option String} {lim : Int} (h : q = "" ∨ queryWords q = ∅) :
    search_chunks st q f lim = [] := by
  unfold search_chunks
  rcases h with h | h <;> simp [h]

/-- Forward direction of the scoring step on an entry passing both tests. -/
theorem scoreEntry_eq_some_of {qw : Finset String} {f : Option String}
    {p : ChunkId × ChunkData}
    (hskip : docFilterSkip f p.2.document_id = false)
    (hne : ¬qw ∩ contentWords p.2.content = ∅) :
    scoreEntry qw f p = some ⟨p.1, p.2.content, p.2.document_id,
      mkRat ((qw ∩ contentWords p.2.content).card) qw.card,
      p.2.chunk_index⟩ := by
  unfold scoreEntry
  rw [hskip]
  simp [hne]

/-- Every returned score is positive. -/
theorem score_pos_of_mem {st : IndexState} {q : String} {f : Option String}
    {lim : Int} {r : SearchResult} (hr : r ∈ search_chunks st q f lim) :
    0 < r.score := by
  obtain ⟨p, hp, hse⟩ := mem_search_elim hr
  obtain ⟨hskip, hne, hreq⟩ := scoreEntry_eq_some hse
  subst hreq
  exact (score_pos_le_one hne).2.1

/-- C1 (amended to nonnegative limits): search_chunks returns at most
limit results, ordered by non-increasing relevance score, every result is
a stored chunk carrying its keyword-overlap score, and no stored chunk
outside the result set scores strictly higher than a returned one. -/
theorem search_returns_top_scored (st : IndexState) (q : String)
    (lim : Int) (hlim : 0 ≤ lim) :
    (((search_chunks st q none lim).length : Int) ≤ lim) ∧
    (search_chunks st q none lim).Pairwise (fun a b => b.score ≤ a.score) ∧
    (∀ r ∈ search_chunks st q none lim, ∃ p ∈ st.chunks,
      p.1 = r.chunk_id ∧ p.2.content = r.content ∧
      p.2.document_id = r.document_id ∧
      r.score = relevanceScore q p.2.content) ∧
    (∀ p ∈ st.chunks,
      (∀ r ∈ search_chunks st q none lim, r.chunk_id ≠ p.1) →
      ∀ r ∈ search_chunks st q none lim,
        relevanceScore q p.2.content ≤ r.score) := by
  by_cases hq : q = "" ∨ queryWords q = ∅
  · rw [search_chunks_guard hq]
    simp
    omega
  · push_neg at hq
    obtain ⟨hq1, hq2⟩ := hq
    refine ⟨?_, ?_, ?_, ?_⟩
    · rw [search_chunks_eq_of_guards hq1 hq2]
      exact pySlice_length_le _ lim hlim
    · rw [search_chunks_eq_of_guards hq1 hq2]
      exact (sortDesc_sorted _).sublist (pySlice_sublist _ lim)
    · intro r hr
      obtain ⟨p, hp, hse⟩ := mem_search_elim hr
      obtain ⟨hskip, hne, hreq⟩ := scoreEntry_eq_some hse
      subst hreq
      exact ⟨p, hp, rfl, rfl, rfl, rfl⟩
    · intro p hp hnotin r hres
      by_cases hc : queryWords q ∩ contentWords p.2.content = ∅
      · have h0 : relevanceScore q p.2.content = 0 := by
          unfold relevanceScore
          rw [hc, Finset.card_empty]
          exact Rat.zero_mkRat _
        rw [h0]
        exact le_of_lt (score_pos_of_mem hres)
      · have hskip : docFilterSkip none p.2.document_id = false := rfl
        have he := scoreEntry_eq_some_of hskip hc
        set e : SearchResult := ⟨p.1, p.2.content, p.2.document_id,
          mkRat ((queryWords q ∩ contentWords p.2.content).card)
            (queryWords q).card, p.2.chunk_index⟩ with hedef
        have hmem : e ∈ sortDesc
            (st.chunks.filterMap (scoreEntry (queryWords q) none)) :=
          (sortDesc_perm _).mem_iff.mpr (List.mem_filterMap.mpr ⟨p, hp, he⟩)
        have hslice : search_chunks st q none lim =
            (sortDesc (st.chunks.filterMap
              (scoreEntry (queryWords q) none))).take lim.toNat := by
          rw [search_chunks_eq_of_guards hq1 hq2]
          unfold pySlice
          rw [if_pos hlim]
        have henotin : e ∉ (sortDesc (st.chunks.filterMap
            (scoreEntry (queryWords q) none))).take lim.toNat := by
          intro hmem'
          exact hnotin e (by rw [hslice]; exact hmem') rfl
        have hedrop : e ∈ (sortDesc (st.chunks.filterMap
            (scoreEntry (queryWords q) none))).drop lim.toNat := by
          have hsplit := hmem
          rw [← List.take_append_drop lim.toNat
            (sortDesc (st.chunks.filterMap
              (scoreEntry (queryWords q) none)))] at hsplit
          rcases List.mem_append.mp hsplit with h | h
          · exact absurd h henotin
          · exact h
        have hrel := List.Pairwise.rel_of_mem_take_of_mem_drop
          (sortDesc_sorted (st.chunks.filterMap
            (scoreEntry (queryWords q) none)))
          (by rw [hslice] at hres; exact hres) hedrop
        exact hrel

end DocumentIndexer

namespace DocumentIndexer

/-- A concrete index state holding two chunks of one document, both
containing the query word "hello". -/
def exState2 : IndexState :=
  ⟨[("doc1", ⟨2, [⟨"doc1", 0, "h0"⟩, ⟨"doc1", 1, "h1"⟩]⟩)],
   [(⟨"doc1", 0, "h0"⟩, ⟨"hello aaa", "doc1", 0, 2⟩),
    (⟨"doc1", 1, "h1"⟩, ⟨"hello aaa", "doc1", 1, 2⟩)]⟩

/-- Counterexample to C1 as stated: search_chunks is quantified over every
limit, but for the Python int limit -1 the slice scored_chunks[:-1] keeps
one of the two matching stored chunks, and one result is not "at most -1
results". -/
theorem search_limit_counterexample :
    (search_chunks exState2 "hello" none (-1)).length = 1 ∧
    ¬(((search_chunks exState2 "hello" none (-1)).length : Int) ≤ -1) := by
  decide

/-- Witness for search_returns_top_scored at the concrete state exState2,
query "hello" and limit 5. -/
theorem search_returns_top_scored_witness :
    ((0 : Int) ≤ 5) ∧
    ((((search_chunks exState2 "hello" none 5).length : Int) ≤ 5) ∧
    (search_chunks exState2 "hello" none 5).Pairwise
      (fun a b => b.score ≤ a.score) ∧
    (∀ r ∈ search_chunks exState2 "hello" none 5, ∃ p ∈ exState2.chunks,
      p.1 = r.chunk_id ∧ p.2.content = r.content ∧
      p.2.document_id = r.document_id ∧
      r.score = relevanceScore "hello" p.2.content) ∧
    (∀ p ∈ exState2.chunks,
      (∀ r ∈ search_chunks exState2 "hello" none 5, r.chunk_id ≠ p.1) →
      ∀ r ∈ search_chunks exState2 "hello" none 5,
        relevanceScore "hello" p.2.content ≤ r.score)) :=
  ⟨by decide, search_returns_top_scored exState2 "hello" 5 (by decide)⟩

/-- Witness for search_score_is_keyword_overlap: the first chunk of
exState2 is returned for the query "hello" with score 1 = 1/1. -/
theorem search_score_is_keyword_overlap_witness :
    ((⟨⟨"doc1", 0, "h0"⟩, "hello aaa", "doc1", 1, 0⟩ : SearchResult) ∈
      search_chunks exState2 "hello" none 5) ∧
    ((⟨⟨"doc1", 0, "h0"⟩, "hello aaa", "doc1", 1, 0⟩ : SearchResult).score =
      ((queryWords "hello" ∩ contentWords
        (⟨⟨"doc1", 0, "h0"⟩, "hello aaa", "doc1", 1, 0⟩ :
          SearchResult).content).card : ℚ) /
        (((queryWords "hello").card : ℚ)) ∧
      0 < (⟨⟨"doc1", 0, "h0"⟩, "hello aaa", "doc1", 1, 0⟩ :
        SearchResult).score ∧
      (⟨⟨"doc1", 0, "h0"⟩, "hello aaa", "doc1", 1, 0⟩ :
        SearchResult).score ≤ 1 ∧
      (queryWords "hello" ∩ contentWords
        (⟨⟨"doc1", 0, "h0"⟩, "hello aaa", "doc1", 1, 0⟩ :
          SearchResult).content).Nonempty) :=
  ⟨by decide,
   search_score_is_keyword_overlap exState2 "hello" none 5 _ (by decide)⟩

/-- Witness for search_document_filter_no_leak with filter "doc1". -/
theorem search_document_filter_no_leak_witness :
    ("doc1" : String) ≠ "" ∧
    ((⟨⟨"doc1", 0, "h0"⟩, "hello aaa", "doc1", 1, 0⟩ : SearchResult) ∈
      search_chunks exState2 "hello" (some "doc1") 5) ∧
    (⟨⟨"doc1", 0, "h0"⟩, "hello aaa", "doc1", 1, 0⟩ :
      SearchResult).document_id = "doc1" :=
  ⟨by decide, by decide,
   search_document_filter_no_leak exState2 "hello" 5 "doc1" (by decide) _
     (by decide)⟩

end DocumentIndexer

/-- Setting a key makes it retrievable. -/
theorem dictGet?_dictSet_self {κ α : Type} [DecidableEq κ]
    (l : List (κ × α)) (k : κ) (v : α) : dictGet? (dictSet l k v) k = some v := by
  induction l with
  | nil => simp [dictSet, dictGet?]
  | cons p rest ih =>
    rw [dictSet]
    split
    · rw [dictGet?, if_pos rfl]
    · rename_i hne
      rw [dictGet?, if_neg hne]
      exact ih

/-- Setting a key leaves other keys unchanged. -/
theorem dictGet?_dictSet_ne {κ α : Type} [DecidableEq κ]
    (l : List (κ × α)) (k : κ) (v : α) (k' : κ) (h : k' ≠ k) :
    dictGet? (dictSet l k v) k' = dictGet? l k' := by
  induction l with
  | nil =>
    simp only [dictSet, dictGet?]
    rw [if_neg (fun he => h he.symm)]
  | cons p rest ih =>
    rw [dictSet]
    split
    · rename_i heq
      rw [dictGet?, if_neg (fun he => h he.symm), dictGet?, heq,
        if_neg (fun he => h he.symm)]
    · rw [dictGet?, dictGet?]
      split
      · rfl
      · exact ih

namespace DocumentIndexer

/-- The Python test "not chunk or not chunk.strip()" marking a blank chunk. -/
def blankChunk (c : String) : Bool := c == "" || pyStrip c == ""

/-- Loop invariant of index_chunks: processing the enumerated tail starting
at position n extends the retrievable chunk contents of document d by the
stripped non-blank chunks, provided every chunk id already recorded for d
has index below n (so no later write can collide with it). -/
theorem indexLoop_get_doc (h : String → String) (d : String)
    (l : List String) :
    ∀ (n : Nat) (st : IndexState) (info : DocInfo),
      dictGet? st.documents d = some info →
      (∀ cid ∈ info.chunk_ids, cid.doc = d → cid.idx < n) →
      get_document_chunks (indexLoop h d st (List.enumFrom n l)) d =
        get_document_chunks st d ++
          (l.filter (fun c => !(blankChunk c))).map pyStrip := by
  induction l with
  | nil =>
    intro n st info hdoc hidx
    simp [indexLoop]
  | cons c l ih =>
    intro n st info hdoc hidx
    rw [show List.enumFrom n (c :: l) = (n, c) :: List.enumFrom (n + 1) l
      from rfl]
    rw [indexLoop]
    by_cases hb : (c == "" || pyStrip c == "") = true
    · rw [if_pos hb]
      rw [ih (n + 1) st info hdoc
        (fun cid hc hd' => Nat.lt_succ_of_lt (hidx cid hc hd'))]
      have : l.filter (fun c => !(blankChunk c)) =
          (c :: l).filter (fun c => !(blankChunk c)) := by
        rw [List.filter_cons]
        simp [blankChunk, hb]
      rw [← this]
    · rw [if_neg hb]
      rw [hdoc]
      set cid : ChunkId := ⟨d, n, h c⟩ with hciddef
      set cd : ChunkData := ⟨pyStrip c, d, n, (pySplit c).length⟩ with hcddef
      set info' : DocInfo :=
        { info with chunk_ids := info.chunk_ids ++ [cid] } with hinfodef
      set st' : IndexState :=
        ⟨dictSet st.documents d info', dictSet st.chunks cid cd⟩ with hstdef
      have hdoc' : dictGet? st'.documents d = some info' :=
        dictGet?_dictSet_self st.documents d info'
      have hidx' : ∀ c' ∈ info'.chunk_ids, c'.doc = d → c'.idx < n + 1 := by
        intro c' hc' hd'
        rcases List.mem_append.mp hc' with hold | hnew
        · exact Nat.lt_succ_of_lt (hidx c' hold hd')
        · rw [List.mem_singleton.mp hnew]
          exact Nat.lt_succ_self n
      have hstep : get_document_chunks
          (indexLoop h d st' (List.enumFrom (n + 1) l)) d =
          get_document_chunks st' d ++
            (l.filter (fun c => !(blankChunk c))).map pyStrip :=
        ih (n + 1) st' info' hdoc' hidx'
      have hget : get_document_chunks st' d =
          get_document_chunks st d ++ [pyStrip c] := by
        unfold get_document_chunks
        rw [hdoc', hdoc]
        show (info.chunk_ids ++ [cid]).filterMap
            (fun c' => (dictGet? st'.chunks c').map (·.content)) = _
        rw [List.filterMap_append]
        have hcong : info.chunk_ids.filterMap
            (fun c' => (dictGet? st'.chunks c').map (·.content)) =
            info.chunk_ids.filterMap
              (fun c' => (dictGet? st.chunks c').map (·.content)) := by
          apply List.filterMap_congr
          intro c' hc'
          have hne : c' ≠ cid := by
            intro he
            have hd' : c'.doc = d := by rw [he]
            have := hidx c' hc' hd'
            rw [he] at this
            exact Nat.lt_irrefl n this
          rw [show st'.chunks = dictSet st.chunks cid cd from rfl]
          rw [dictGet?_dictSet_ne st.chunks cid cd c' hne]
        rw [hcong]
        have hcid : (dictGet? st'.chunks cid).map (·.content) =
            some (pyStrip c) := by
          rw [show st'.chunks = dictSet st.chunks cid cd from rfl]
          rw [dictGet?_dictSet_self]
          rfl
        show _ ++ List.filterMap _ [cid] = _
        rw [show List.filterMap
            (fun c' => (dictGet? st'.chunks c').map (·.content)) [cid] =
          [pyStrip c] from by
            rw [List.filterMap]
            rw [hcid]
            rfl]
      have hfc : (c :: l).filter (fun c => !(blankChunk c)) =
          c :: l.filter (fun c => !(blankChunk c)) := by
        rw [List.filter_cons]
        simp [blankChunk, hb]
      show get_document_chunks
          (indexLoop h d st' (List.enumFrom (n + 1) l)) d =
        get_document_chunks st d ++
          ((c :: l).filter (fun c => !(blankChunk c))).map pyStrip
      rw [hstep, hget, hfc]
      simp

/-- C8: indexing a fresh document and reading it back returns exactly the
non-blank chunks of the input, stripped, in their original order. -/
theorem index_roundtrip (h : String → String) (st : IndexState)
    (chunks : List String) (d : String)
    (hfresh : dictGet? st.documents d = none) (hne : chunks ≠ [])
    (hok : (index_chunks h st chunks d).1 = true) :
    get_document_chunks (index_chunks h st chunks d).2 d =
      (chunks.filter (fun c => !(blankChunk c))).map pyStrip := by
  unfold index_chunks at hok ⊢
  by_cases hg : chunks = [] ∨ d = ""
  · rw [if_pos hg] at hok
    simp at hok
  · rw [if_neg hg] at hok ⊢
    have hst1 : dictGet? (dictSet st.documents d
        (⟨chunks.length, []⟩ : DocInfo)) d =
        some (⟨chunks.length, []⟩ : DocInfo) :=
      dictGet?_dictSet_self st.documents d _
    have := indexLoop_get_doc h d chunks 0
      ⟨dictSet st.documents d ⟨chunks.length, []⟩, st.chunks⟩
      ⟨chunks.length, []⟩ hst1 (by intro cid hc; simp at hc)
    rw [show chunks.enum = List.enumFrom 0 chunks from rfl]
    rw [this]
    have hempty : get_document_chunks
        ⟨dictSet st.documents d ⟨chunks.length, []⟩, st.chunks⟩ d = [] := by
      unfold get_document_chunks
      rw [hst1]
      rfl
    rw [hempty]
    rfl

end DocumentIndexer

/-- Deleting a key removes it. -/
theorem dictGet?_dictDel_self {κ α : Type} [DecidableEq κ]
    (l : List (κ × α)) (k : κ) : dictGet? (dictDel l k) k = none := by
  induction l with
  | nil => rfl
  | cons p rest ih =>
    rw [dictDel]
    split
    · exact ih
    · rename_i hne
      rw [dictGet?, if_neg hne]
      exact ih

/-- Membership after a single dict delete. -/
theorem mem_dictDel {κ α : Type} [DecidableEq κ]
    {l : List (κ × α)} {k : κ} {p : κ × α} :
    p ∈ dictDel l k ↔ p ∈ l ∧ p.1 ≠ k := by
  induction l with
  | nil => simp [dictDel]
  | cons q rest ih =>
    rw [dictDel]
    by_cases hqk : q.1 = k
    · rw [if_pos hqk, ih]
      constructor
      · rintro ⟨hm, hne⟩
        exact ⟨List.mem_cons_of_mem q hm, hne⟩
      · rintro ⟨hm, hne⟩
        rcases List.mem_cons.mp hm with he | hm'
        · exact absurd (by rw [he]; exact hqk) hne
        · exact ⟨hm', hne⟩
    · rw [if_neg hqk, List.mem_cons, ih, List.mem_cons]
      constructor
      · rintro (he | ⟨hm, hne⟩)
        · exact ⟨Or.inl he, fun hk => hqk (by rw [he] at hk; exact hk)⟩
        · exact ⟨Or.inr hm, hne⟩
      · rintro ⟨he | hm, hne⟩
        · exact Or.inl he
        · exact Or.inr ⟨hm, hne⟩

/-- Membership after folding dict deletes over a list of keys. -/
theorem mem_foldl_dictDel {κ α : Type} [DecidableEq κ]
    (ks : List κ) :
    ∀ (l : List (κ × α)) (p : κ × α),
      p ∈ ks.foldl (fun cs k => dictDel cs k) l ↔ p ∈ l ∧ p.1 ∉ ks := by
  induction ks with
  | nil => simp
  | cons k ks ih =>
    intro l p
    rw [List.foldl_cons, ih (dictDel l k) p, mem_dictDel]
    constructor
    · rintro ⟨⟨hm, hne⟩, hnin⟩
      refine ⟨hm, ?_⟩
      intro hk
      rcases List.mem_cons.mp hk with h | h
      · exact hne h
      · exact hnin h
    · rintro ⟨hm, hnin⟩
      exact ⟨⟨hm, fun h => hnin (h ▸ List.mem_cons_self k ks)⟩,
        fun h => hnin (List.mem_cons_of_mem k h)⟩

namespace DocumentIndexer

/-- The empty Python slice. -/
theorem pySlice_nil {α : Type} (n : Int) : pySlice ([] : List α) n = [] := by
  unfold pySlice
  split <;> simp

/-- C8 witness: indexing three chunks (one blank) of a fresh document and
reading them back. -/
theorem index_roundtrip_witness :
    dictGet? emptyIndex.documents "doc1" = none ∧
    (["  alpha beta  ", "", "gamma"] : List String) ≠ [] ∧
    (index_chunks idHash emptyIndex
      ["  alpha beta  ", "", "gamma"] "doc1").1 = true ∧
    get_document_chunks (index_chunks idHash emptyIndex
      ["  alpha beta  ", "", "gamma"] "doc1").2 "doc1" =
      ((["  alpha beta  ", "", "gamma"] : List String).filter
        (fun c => !(blankChunk c))).map pyStrip :=
  ⟨rfl, by decide, by decide,
   index_roundtrip idHash emptyIndex ["  alpha beta  ", "", "gamma"] "doc1"
     rfl (by decide) (by decide)⟩

/-- A reachable state in which document "d" was indexed twice with
different contents: the chunk of the first indexing remains stored but is
no longer listed under the document's chunk_ids. -/
def exOrphanState : IndexState :=
  (index_chunks idHash
    (index_chunks idHash emptyIndex ["orphan text"] "d").2
    ["current text"] "d").2

/-- Counterexample to C2 as stated: remove_document "d" returns True, yet
a chunk with document_id "d" (left over from re-indexing the same
document) survives, and a document-filtered search still returns it. -/
theorem remove_document_counterexample :
    (remove_document exOrphanState "d").1 = true ∧
    (∃ p ∈ (remove_document exOrphanState "d").2.chunks,
      p.2.document_id = "d") ∧
    search_chunks (remove_document exOrphanState "d").2
      "orphan" (some "d") 5 ≠ [] := by
  decide

/-- C2 amended: after remove_document d returns True the document entry is
gone, so get_document_chunks d returns []; and on well-formed states (every
stored chunk of document d is listed under d's chunk_ids) with d non-empty,
no chunk of d survives and every document-filtered search for d is empty. -/
theorem remove_document_spec (st : IndexState) (d : String)
    (hok : (remove_document st d).1 = true) :
    dictGet? (remove_document st d).2.documents d = none ∧
    get_document_chunks (remove_document st d).2 d = [] ∧
    ((∀ p ∈ st.chunks, p.2.document_id = d →
        ∀ info, dictGet? st.documents d = some info →
          p.1 ∈ info.chunk_ids) →
      (∀ p ∈ (remove_document st d).2.chunks, p.2.document_id ≠ d) ∧
      (d ≠ "" → ∀ (q : String) (lim : Int),
        search_chunks (remove_document st d).2 q (some d) lim = [])) := by
  rcases hinfo : dictGet? st.documents d with _ | info
  · unfold remove_document at hok
    rw [hinfo] at hok
    simp at hok
  · have hrw : remove_document st d = (true,
        ⟨dictDel st.documents d,
         info.chunk_ids.foldl (fun cs cid => dictDel cs cid) st.chunks⟩) := by
      unfold remove_document
      rw [hinfo]
    rw [hrw]
    refine ⟨dictGet?_dictDel_self st.documents d, ?_, ?_⟩
    · unfold get_document_chunks
      rw [show dictGet? (dictDel st.documents d) d = none from
        dictGet?_dictDel_self st.documents d]
    · intro hwf
      have hnochunk : ∀ p ∈ info.chunk_ids.foldl
          (fun cs cid => dictDel cs cid) st.chunks, p.2.document_id ≠ d := by
        intro p hp hdid
        obtain ⟨hm, hnin⟩ := (mem_foldl_dictDel info.chunk_ids st.chunks p).mp hp
        exact hnin (hwf p hm hdid info rfl)
      refine ⟨hnochunk, ?_⟩
      intro hd q lim
      by_cases hg : q = "" ∨ queryWords q = ∅
      · exact search_chunks_guard hg
      · push_neg at hg
        rw [search_chunks_eq_of_guards hg.1 hg.2]
        have hfm : (info.chunk_ids.foldl (fun cs cid => dictDel cs cid)
            st.chunks).filterMap (scoreEntry (queryWords q) (some d)) = [] := by
          rw [List.filterMap_eq_nil_iff]
          intro p hp
          unfold scoreEntry
          rw [if_pos ?_]
          simp only [docFilterSkip, Bool.and_eq_true, bne_iff_ne, ne_eq]
          exact ⟨hd, hnochunk p hp⟩
        rw [hfm]
        rw [show sortDesc [] = [] from rfl]
        exact pySlice_nil lim

/-- Witness for remove_document_spec on a well-formed concrete state. -/
theorem remove_document_spec_witness :
    (remove_document exState2 "doc1").1 = true ∧
    (dictGet? (remove_document exState2 "doc1").2.documents "doc1" = none ∧
    get_document_chunks (remove_document exState2 "doc1").2 "doc1" = [] ∧
    ((∀ p ∈ exState2.chunks, p.2.document_id = "doc1" →
        ∀ info, dictGet? exState2.documents "doc1" = some info →
          p.1 ∈ info.chunk_ids) →
      (∀ p ∈ (remove_document exState2 "doc1").2.chunks,
        p.2.document_id ≠ "doc1") ∧
      (("doc1" : String) ≠ "" → ∀ (q : String) (lim : Int),
        search_chunks (remove_document exState2 "doc1").2
          q (some "doc1") lim = []))) :=
  ⟨by decide, remove_document_spec exState2 "doc1" (by decide)⟩

end DocumentIndexer

namespace VectorStore

/-- Ascending insertion preserves the multiset of pairs. -/
theorem insertAscP_perm (x : Nat × ℚ) (l : List (Nat × ℚ)) :
    List.Perm (insertAscP x l) (x :: l) := by
  induction l with
  | nil => exact List.Perm.refl _
  | cons y ys ih =>
    rw [insertAscP]
    split
    · exact (ih.cons y).trans (List.Perm.swap x y ys)
    · exact List.Perm.refl _

/-- Ascending sort preserves the multiset of pairs. -/
theorem sortAscP_perm (l : List (Nat × ℚ)) : List.Perm (sortAscP l) l := by
  induction l with
  | nil => exact List.Perm.refl _
  | cons x xs ih => exact (insertAscP_perm x (sortAscP xs)).trans (ih.cons x)

/-- Ascending insertion keeps similarities sorted. -/
theorem insertAscP_sorted (x : Nat × ℚ) {l : List (Nat × ℚ)}
    (h : l.Pairwise (fun a b => a.2 ≤ b.2)) :
    (insertAscP x l).Pairwise (fun a b => a.2 ≤ b.2) := by
  induction l with
  | nil => simp [insertAscP]
  | cons y ys ih =>
    rw [insertAscP]
    rw [List.pairwise_cons] at h
    split
    · rename_i hlt
      rw [List.pairwise_cons]
      refine ⟨?_, ih h.2⟩
      intro b hb
      rcases List.mem_cons.mp ((insertAscP_perm x ys).mem_iff.mp hb) with rfl | hby
      · exact le_of_lt hlt
      · exact h.1 b hby
    · rename_i hge
      rw [List.pairwise_cons]
      refine ⟨?_, List.pairwise_cons.mpr h⟩
      intro b hb
      rcases List.mem_cons.mp hb with rfl | hby
      · exact le_of_not_lt hge
      · exact le_trans (le_of_not_lt hge) (h.1 b hby)

/-- The model of np.argsort sorts the (index, similarity) pairs by
ascending similarity. -/
theorem sortAscP_sorted (l : List (Nat × ℚ)) :
    (sortAscP l).Pairwise (fun a b => a.2 ≤ b.2) := by
  induction l with
  | nil => simp [sortAscP]
  | cons x xs ih => exact insertAscP_sorted x ih

/-- argsort returns a permutation of all indices of the array. -/
theorem argsortAsc_perm_range (sims : List ℚ) :
    List.Perm (argsortAsc sims) (List.range sims.length) := by
  unfold argsortAsc
  have h := (sortAscP_perm sims.enum).map Prod.fst
  rw [List.enum_map_fst] at h
  exact h

/-- A pair drawn from the enumeration of the similarity array is an
in-range index together with the similarity stored there. -/
theorem snd_eq_getD_of_mem_enum {l : List ℚ} {p : Nat × ℚ}
    (h : p ∈ l.enum) : p.1 < l.length ∧ p.2 = l.getD p.1 0 := by
  obtain ⟨k, hk, hget⟩ := List.mem_iff_getElem.mp h
  have hk' : k < l.length := by
    rw [List.enum_length] at hk
    exact hk
  rw [List.getElem_enum] at hget
  constructor
  · rw [← hget]
    exact hk'
  · rw [← hget]
    exact (List.getD_eq_getElem l 0 hk').symm

end VectorStore

namespace VectorStore

/-- C5 (amended to nonnegative top_k, over stores whose chunk and
embedding lists have equal length): query_chunks returns [] on an empty
store, and otherwise exactly min(top_k, number of stored chunks) results,
each a stored chunk, drawn at distinct in-range indices whose similarity
is at least that of every unselected index. -/
theorem query_chunks_spec (encode : String → List ℚ)
    (cosSim : List ℚ → List ℚ → ℚ) (st : VSState) (q : String)
    (top_k : Int) (hlen : st.chunks.length = st.embeddings.length)
    (htk : 0 ≤ top_k) :
    (st.chunks = [] → query_chunks encode cosSim st q top_k = []) ∧
    (st.chunks ≠ [] →
      (((query_chunks encode cosSim st q top_k).length : Int) =
        min top_k (st.chunks.length : Int)) ∧
      (∀ c ∈ query_chunks encode cosSim st q top_k, c ∈ st.chunks) ∧
      ∃ idx : List Nat,
        query_chunks encode cosSim st q top_k =
          idx.map (fun i => st.chunks.getD i "") ∧
        idx.Nodup ∧ (∀ i ∈ idx, i < st.chunks.length) ∧
        (∀ i ∈ idx, ∀ j, j < st.chunks.length → j ∉ idx →
          (simList encode cosSim st q).getD j 0 ≤
            (simList encode cosSim st q).getD i 0)) := by
  constructor
  · intro hc
    unfold query_chunks
    rw [if_pos (Or.inl hc)]
  · intro hc
    set sims := simList encode cosSim st q with hsimsdef
    have hslen : sims.length = st.chunks.length := by
      rw [hsimsdef]
      unfold simList
      rw [List.length_map, hlen]
    have hemb : st.embeddings ≠ [] := by
      intro he
      apply hc
      rw [he] at hlen
      simp only [List.length_nil] at hlen
      exact List.length_eq_zero.mp hlen
    have hcond1 : ¬(st.chunks = [] ∨ st.embeddings = []) := by
      rintro (h | h)
      · exact hc h
      · exact hemb h
    by_cases hk0 : min top_k (st.chunks.length : Int) = 0
    · have hres : query_chunks encode cosSim st q top_k = [] := by
        unfold query_chunks
        rw [if_neg hcond1, if_pos hk0]
      rw [hres]
      refine ⟨by rw [hk0]; rfl, by simp, [], by simp, by simp, by simp, by simp⟩
    · set k := min top_k (st.chunks.length : Int) with hkdef
      have hn0 : (0 : Int) ≤ (st.chunks.length : Int) := Int.natCast_nonneg _
      have hknn : 0 ≤ k := le_min htk hn0
      have hkpos : 0 < k := lt_of_le_of_ne hknn (Ne.symm hk0)
      have hkn : k ≤ (st.chunks.length : Int) := min_le_right _ _
      have hres : query_chunks encode cosSim st q top_k =
          ((argsortAsc sims).drop
            ((argsortAsc sims).length - k.natAbs)).reverse.map
            (fun i => st.chunks.getD i "") := by
        unfold query_chunks
        rw [if_neg hcond1, if_neg hk0]
        have hslice : pySliceFrom (argsortAsc sims) (-k) =
            (argsortAsc sims).drop ((argsortAsc sims).length - k.natAbs) := by
          unfold pySliceFrom
          rw [if_neg (by omega), Int.natAbs_neg]
        rw [← hkdef, ← hsimsdef, hslice]
      have harglen : (argsortAsc sims).length = st.chunks.length := by
        rw [(argsortAsc_perm_range sims).length_eq, List.length_range, hslen]
      have hargnodup : (argsortAsc sims).Nodup :=
        (argsortAsc_perm_range sims).nodup_iff.mpr (List.nodup_range _)
      have hmem_arg : ∀ i, i ∈ argsortAsc sims ↔ i < st.chunks.length := by
        intro i
        rw [(argsortAsc_perm_range sims).mem_iff, List.mem_range, hslen]
      set t := (argsortAsc sims).length - k.natAbs with htdef
      set idx := ((argsortAsc sims).drop t).reverse with hidxdef
      have hidx_sub : ∀ i ∈ idx, i ∈ argsortAsc sims := by
        intro i hi
        rw [hidxdef, List.mem_reverse] at hi
        exact List.drop_subset t _ hi
      have hkabs : (k.natAbs : Int) = k := Int.natAbs_of_nonneg hknn
      refine ⟨?_, ?_, idx, hres, ?_, ?_, ?_⟩
      · rw [hres, List.length_map, List.length_reverse, List.length_drop]
        omega
      · intro c hcmem
        rw [hres] at hcmem
        obtain ⟨i, hi, hceq⟩ := List.mem_map.mp hcmem
        have hib : i < st.chunks.length := (hmem_arg i).mp (hidx_sub i hi)
        rw [← hceq, List.getD_eq_getElem st.chunks "" hib]
        exact List.getElem_mem hib
      · rw [hidxdef]
        exact List.nodup_reverse.mpr (hargnodup.sublist (List.drop_sublist t _))
      · intro i hi
        exact (hmem_arg i).mp (hidx_sub i hi)
      · intro i hi j hj hjn
        have hjarg : j ∈ argsortAsc sims := (hmem_arg j).mpr hj
        have hjtake : j ∈ (argsortAsc sims).take t := by
          have hsplit := hjarg
          rw [← List.take_append_drop t (argsortAsc sims)] at hsplit
          rcases List.mem_append.mp hsplit with h | h
          · exact h
          · exact absurd (by rw [hidxdef, List.mem_reverse]; exact h) hjn
        have hitake : i ∈ (argsortAsc sims).drop t := by
          rw [hidxdef, List.mem_reverse] at hi
          exact hi
        rw [show argsortAsc sims = (sortAscP sims.enum).map (·.1) from rfl,
          ← List.map_take] at hjtake
        rw [show argsortAsc sims = (sortAscP sims.enum).map (·.1) from rfl,
          ← List.map_drop] at hitake
        obtain ⟨pj, hpj, hpj1⟩ := List.mem_map.mp hjtake
        obtain ⟨pi, hpi, hpi1⟩ := List.mem_map.mp hitake
        have hrel := List.Pairwise.rel_of_mem_take_of_mem_drop
          (sortAscP_sorted sims.enum) hpj hpi
        have hjpair := snd_eq_getD_of_mem_enum
          ((sortAscP_perm sims.enum).mem_iff.mp (List.mem_of_mem_take hpj))
        have hipair := snd_eq_getD_of_mem_enum
          ((sortAscP_perm sims.enum).mem_iff.mp (List.mem_of_mem_drop hpi))
        rw [hpj1] at hjpair
        rw [hpi1] at hipair
        rw [← hjpair.2, ← hipair.2]
        exact hrel

end VectorStore

namespace VectorStore

/-- A stand-in embedding model used only in witnesses; no theorem depends
on its values. -/
def exEncode : String → List ℚ := fun _ => []

/-- A stand-in cosine similarity used only in witnesses: reads the first
coordinate of the stored row. -/
def exCosSim : List ℚ → List ℚ → ℚ := fun _ row => row.getD 0 0

/-- A store holding two chunks whose similarities to any query are 1, 0. -/
def exVS : VSState := ⟨["aaa", "bbb"], [[1], [0]]⟩

/-- Counterexample to C5 as stated: it quantifies over every top_k, but
for the Python int top_k = -1 the code takes k = min(-1, 2) = -1, misses
the k == 0 early return, and np.argsort(...)[1:][::-1] yields one result,
not min(top_k, number of stored chunks) = -1 results. -/
theorem query_chunks_counterexample :
    (query_chunks exEncode exCosSim exVS "q" (-1)).length = 1 ∧
    ¬(((query_chunks exEncode exCosSim exVS "q" (-1)).length : Int) =
      min (-1) (exVS.chunks.length : Int)) := by
  decide

/-- Witness for query_chunks_spec at top_k = 1 on the two-chunk store. -/
theorem query_chunks_spec_witness :
    exVS.chunks.length = exVS.embeddings.length ∧ (0 : Int) ≤ 1 ∧
    (((query_chunks exEncode exCosSim exVS "q" 1).length : Int) =
      min 1 (exVS.chunks.length : Int)) ∧
    (∀ c ∈ query_chunks exEncode exCosSim exVS "q" 1, c ∈ exVS.chunks) :=
  ⟨rfl, by decide,
   ((query_chunks_spec exEncode exCosSim exVS "q" 1 rfl (by decide)).2
     (by decide)).1,
   ((query_chunks_spec exEncode exCosSim exVS "q" 1 rfl (by decide)).2
     (by decide)).2.1⟩

end VectorStore
